import Mathlib

/-!
# Verification of the TrelloClone optimistic mutation core

Shallow embedding of `src/lib/hooks/useBoards.ts` (the `useBoards` board
collection controller and the `useBoard` single board controller) and of
`src/lib/services.ts` (the remote store gateway layer).

Remote calls are modelled as explicit oracle parameters of type
`Except String _`: `.ok v` means the awaited gateway promise resolved with
`v`, `.error msg` means it rejected and the `catch` branch observes the
message `msg`.  React `useState` state is passed explicitly; each hook
operation is a pure function from the pre-call state (plus oracles) to the
post-call state and return value.  A thrown synchronous exception (the
`throw new Error("Not ready yet")` guards) is modelled as the `Except.error`
of the operation itself, while a caught gateway failure produces `Except.ok`
with the error slot filled — mirroring that the `async` functions never
reject once past the readiness guard.
-/

namespace TC

/-- A `boards` row (src/lib/supabase/models re-exported shape, as used by the
hooks and services: id, title, description, color, user_id, timestamps). -/
structure Board where
  id : String
  title : String
  description : Option String
  color : String
  user_id : String
  created_at : String
  updated_at : String
  deriving DecidableEq, Repr

/-- A `columns` row. -/
structure Column where
  id : String
  title : String
  board_id : String
  user_id : String
  sort_order : Int
  created_at : String
  deriving DecidableEq, Repr

/-- A `tasks` row.  `description`, `assignee`, `due_date` and `priority` are
nullable in the store, hence `Option`. -/
structure Task where
  id : String
  title : String
  description : Option String
  assignee : Option String
  due_date : Option String
  priority : Option String
  column_id : String
  sort_order : Int
  created_at : String
  updated_at : String
  deriving DecidableEq, Repr

instance : Inhabited Task :=
  ⟨{ id := "", title := "", description := none, assignee := none,
     due_date := none, priority := none, column_id := "", sort_order := 0,
     created_at := "", updated_at := "" }⟩

/-- A column together with its embedded ordered task list
(`ColumnWithTasks` in the source). -/
structure ColumnWithTasks where
  id : String
  title : String
  board_id : String
  user_id : String
  sort_order : Int
  created_at : String
  tasks : List Task
  deriving DecidableEq, Repr

/-- The `BoardDeletedSnapshot` type from useBoards.ts: full copy of a board and its
columns and tasks, captured at delete time. -/
structure BoardDeletedSnapshot where
  board : Board
  columns : List Column
  tasks : List Task
  deriving DecidableEq, Repr

/-- The `DeletedSnapshot` type from useBoards.ts: a task plus its original column
identity and index. -/
structure DeletedSnapshot where
  task : Task
  columnId : String
  index : Nat
  deriving DecidableEq, Repr

/-- State of the `useBoards` hook: boards list, per-board task counts
(a JS object, modelled as an insertion-ordered association list), and the
error slot.  The loading flag plays no role in the claims. -/
structure BoardsState where
  boards : List Board
  boardCounts : List (String × Nat)
  error : Option String
  deriving DecidableEq, Repr

/-- State of the `useBoard` hook: current board, columns with embedded task
lists, error slot. -/
structure BoardState where
  board : Option Board
  columns : List ColumnWithTasks
  error : Option String
  deriving DecidableEq, Repr

/-! ## JS object / Map helpers -/

/-- Lookup in an insertion-ordered association list (first match). -/
def lookupNat (m : List (String × Nat)) (k : String) : Option Nat :=
  (m.find? (fun p => p.1 = k)).map (fun p => p.2)

/-- JS object spread of `prev` with key `k` set to `v`: if `k` is already a
key its value is replaced in place; otherwise `(k, v)` is appended at the
end. -/
def setKey (m : List (String × Nat)) (k : String) (v : Nat) : List (String × Nat) :=
  if m.any (fun p => p.1 = k) then
    m.map (fun p => if p.1 = k then (k, v) else p)
  else m ++ [(k, v)]

/-- Model of the boardCounts removal: keep the entries whose key differs
from `k` (the source filters the object's entries). -/
def removeKey (m : List (String × Nat)) (k : String) : List (String × Nat) :=
  m.filter (fun p => p.1 ≠ k)

/-! ## Stable sort

JS `Array.prototype.sort` with comparator
`(a, b) => (a.sort_order ?? 0) - (b.sort_order ?? 0)` is a stable sort by
`sort_order`; the stably sorted permutation of a list is unique, so we model
it with textbook stable insertion sort, generic in the boolean `le`. -/

def insertLe {α : Type} (le : α → α → Bool) (x : α) : List α → List α
  | [] => [x]
  | y :: ys => if le x y then x :: y :: ys else y :: insertLe le x ys

def sortLe {α : Type} (le : α → α → Bool) : List α → List α
  | [] => []
  | x :: xs => insertLe le x (sortLe le xs)

/-- Comparator used for task lists. -/
def taskLe (a b : Task) : Bool := a.sort_order ≤ b.sort_order

/-- Comparator used for snapshot columns in `restoreBoard`. -/
def columnLe (a b : Column) : Bool := a.sort_order ≤ b.sort_order

def sortTasks : List Task → List Task := sortLe taskLe

/-! ## Service layer (src/lib/services.ts)

`taskService.editTaskInColumn` and `taskService.deleteTask` perform a
primary write, then fetch the owning board id, then `touchBoard`.  Each
`await` is an oracle.  Besides the returned `Except` we record the trace of
store writes that actually committed, to make "not rolled back" expressible:
a rollback would have to appear as a compensating write in the trace. -/

/-- A write that reached the persistent store. -/
inductive StoreWrite where
  | taskUpdate (taskId : String)
  | taskDelete (taskId : String)
  | taskInsert (taskId : String)
  | columnUpdate (columnId : String)
  | boardTouch (boardId : String)
  deriving DecidableEq, Repr

/-- Model of `taskService.editTaskInColumn` (services.ts): update the task row; on
success look up the owning board and `touchBoard` it.  `upd` is the primary
update's result, `bid` the `getBoardIdByColumnId` result, `tch` the
`touchBoard` result.  Returns the service's `Except` outcome together with
the committed-write trace. -/
def editTaskInColumn (taskId : String) (upd : Except String Task)
    (bid : Except String String) (tch : Except String Unit) :
    Except String Task × List StoreWrite :=
  match upd with
  | .error e => (.error e, [])
  | .ok updated =>
    match bid with
    | .error e => (.error e, [.taskUpdate taskId])
    | .ok boardId =>
      match tch with
      | .error e => (.error e, [.taskUpdate taskId])
      | .ok _ => (.ok updated, [.taskUpdate taskId, .boardTouch boardId])

/-- Model of `taskService.deleteTask` (services.ts): delete the task row; on success
look up the owning board and `touchBoard` it. -/
def serviceDeleteTask (taskId : String) (del : Except String Task)
    (bid : Except String String) (tch : Except String Unit) :
    Except String Task × List StoreWrite :=
  match del with
  | .error e => (.error e, [])
  | .ok deleted =>
    match bid with
    | .error e => (.error e, [.taskDelete taskId])
    | .ok boardId =>
      match tch with
      | .error e => (.error e, [.taskDelete taskId])
      | .ok _ => (.ok deleted, [.taskDelete taskId, .boardTouch boardId])

/-- Model of `columnService.updateColumnTitle` (services.ts): update the
column's title row; on success `touchBoard` the owning board, whose id is
read off the returned row (no separate lookup).  `upd` is the primary
update's result, `tch` the `touchBoard` result. -/
def updateColumnTitle (columnId : String) (upd : Except String Column)
    (tch : Except String Unit) : Except String Column × List StoreWrite :=
  match upd with
  | .error e => (.error e, [])
  | .ok updated =>
    match tch with
    | .error e => (.error e, [.columnUpdate columnId])
    | .ok _ => (.ok updated, [.columnUpdate columnId, .boardTouch updated.board_id])

/-! ## Board collection controller (`useBoards`)

Each operation takes `ready : Bool` — the truth value of
`user?.id && supabase` (resp. `supabase`) at call time.  When `ready` is
false the source throws `new Error("Not ready yet")` synchronously, which we
model as `Except.error` of the operation itself. -/

/-- Model of `createBoard` (useBoards.ts line 87): gateway insert of board plus
default columns (`gw`); on success prepend the board and a zero count. -/
def createBoardHook (ready : Bool) (st : BoardsState)
    (gw : Except String Board) : Except String (BoardsState × Option Board) :=
  if ready = false then .error "Not ready yet." else
  match gw with
  | .ok newBoard =>
      .ok ({ st with boards := newBoard :: st.boards,
                     boardCounts := setKey st.boardCounts newBoard.id 0 },
           some newBoard)
  | .error msg => .ok ({ st with error := some msg }, none)

/-- Model of `updateBoard` (useBoards.ts line 107): gateway update; on success replace
the matching board with the server-returned record. -/
def updateBoardHook (ready : Bool) (st : BoardsState) (id : String)
    (gw : Except String Board) : Except String (BoardsState × Option Board) :=
  if ready = false then .error "Not ready yet" else
  match gw with
  | .ok updated =>
      .ok ({ st with boards := st.boards.map (fun b => if b.id = id then updated else b) },
           some updated)
  | .error msg => .ok ({ st with error := some msg }, none)

/-- Model of `deleteBoard` (useBoards.ts line 120): snapshot via `getBoardDeep`
(`snap`); on snapshot failure set the error and abort.  Otherwise
optimistically remove board and count, then gateway delete (`del`); on
failure reinstate board at the front and the count from the snapshot.  The
`Bool` in the result records whether the gateway delete call was issued. -/
def deleteBoardHook (ready : Bool) (st : BoardsState) (boardId : String)
    (snap : Except String BoardDeletedSnapshot) (del : Except String Unit) :
    Except String (BoardsState × Option BoardDeletedSnapshot × Bool) :=
  if ready = false then .error "Not ready yet" else
  match snap with
  | .error msg => .ok ({ st with error := some msg }, none, false)
  | .ok snapshot =>
    let st1 : BoardsState :=
      { st with boards := st.boards.filter (fun b => b.id ≠ boardId),
                boardCounts := removeKey st.boardCounts boardId }
    match del with
    | .ok _ => .ok (st1, some snapshot, true)
    | .error msg =>
        .ok ({ st1 with
                boards := snapshot.board :: st1.boards,
                boardCounts := setKey st1.boardCounts snapshot.board.id
                  snapshot.tasks.length,
                error := some msg }, none, true)

/-- The `createTask` payload assembled by `restoreBoard` for a snapshot task
`t` whose column was remapped to `newColumnId` (useBoards.ts line 190). -/
structure TaskInsert where
  title : String
  description : Option String
  assignee : Option String
  due_date : Option String
  priority : String
  sort_order : Int
  column_id : String
  deriving DecidableEq, Repr

def mkTaskInsert (t : Task) (newColumnId : String) : TaskInsert :=
  { title := t.title, description := t.description, assignee := t.assignee,
    due_date := t.due_date, priority := t.priority.getD "medium",
    sort_order := t.sort_order, column_id := newColumnId }

/-- The `colIdMap` built by `restoreBoard`: iterate the snapshot columns in
ascending `sort_order` (stable sort) and `Map.set` each old id to the
store-assigned new id (`newColId`).  `Map.set` overwrites, i.e. the last
insertion wins, so we cons each binding in front. -/
def colIdMap (cols : List Column) (newColId : String → String) :
    List (String × String) :=
  ((sortLe columnLe cols).map (fun c => (c.id, newColId c.id))).reverse

def lookupStr (m : List (String × String)) (k : String) : Option String :=
  (m.find? (fun p => p.1 = k)).map (fun p => p.2)

/-- The task-recreation loop of `restoreBoard` (useBoards.ts line 187):
tasks whose `column_id` has no mapping are skipped (`continue`); the rest
are inserted with the remapped column id and a defaulted priority. -/
def recreatedTasks (snapshot : BoardDeletedSnapshot) (newColId : String → String) :
    List TaskInsert :=
  snapshot.tasks.filterMap (fun t =>
    (lookupStr (colIdMap snapshot.columns newColId) t.column_id).map
      (fun ncid => mkTaskInsert t ncid))

/-- Model of `restoreBoard` (useBoards.ts line 160).  The whole body is one
`try`/`catch`; `gw` is `.ok (recreateBoard, newColId)` when every gateway
call succeeds (the store-assigned board record, and the old→new column id
assignment), `.error msg` when some call in the block rejects — in which
case only the error slot changes (already-created records are remote only).
On success, prepend the recreated board and set its count to
`snapshot.tasks.length`, returning the board and the issued task inserts. -/
def restoreBoardHook (ready : Bool) (st : BoardsState)
    (snapshot : BoardDeletedSnapshot)
    (gw : Except String (Board × (String → String))) :
    Except String (BoardsState × Option Board × List TaskInsert) :=
  if ready = false then .error "Not ready yet." else
  match gw with
  | .error msg => .ok ({ st with error := some msg }, none, [])
  | .ok (recreateBoard, newColId) =>
      .ok ({ st with
              boards := recreateBoard :: st.boards,
              boardCounts := setKey st.boardCounts recreateBoard.id
                snapshot.tasks.length },
           some recreateBoard,
           recreatedTasks snapshot newColId)

/-! ## Single board controller (`useBoard`) -/

/-- A `Partial<Task>` update object.  For each field, `none` means the key
is absent or `undefined`; for the nullable text fields the inner option
distinguishes `null` (`some none`) from a string (`some (some s)`). -/
structure TaskUpdates where
  title : Option String
  description : Option (Option String)
  assignee : Option (Option String)
  due_date : Option (Option String)
  priority : Option (Option String)
  column_id : Option String
  sort_order : Option Int
  deriving DecidableEq, Repr

/-- One field of `sanitizeTaskUpdates`: an empty string becomes `null`,
`undefined` stays dropped, anything else is kept as-is. -/
def sanitizeField : Option (Option String) → Option (Option String)
  | some (some s) => if s = "" then some none else some (some s)
  | v => v

/-- Model of `sanitizeTaskUpdates` (useBoards.ts line 35): drop `undefined` entries;
for `due_date`, `description` and `assignee` convert `""` to `null`; keep
every other key's value as-is. -/
def sanitizeTaskUpdates (updates : TaskUpdates) : TaskUpdates :=
  { updates with
      description := sanitizeField updates.description,
      assignee := sanitizeField updates.assignee,
      due_date := sanitizeField updates.due_date }

/-- Model of `updateBoard` of the single board page (useBoards.ts line 262). -/
def updateBoardLocalHook (ready : Bool) (st : BoardState) (id : String)
    (gw : Except String Board) : Except String (BoardState × Option Board) :=
  if ready = false then .error "Not ready yet" else
  match gw with
  | .ok updated => .ok ({ st with board := some updated }, some updated)
  | .error msg => .ok ({ st with error := some msg }, none)

/-- The sort position computed by `createRealTask`:
`columns.find((c) => c.id === columnId)?.tasks.length ?? 0`. -/
def computeSortOrder (cols : List ColumnWithTasks) (columnId : String) : Int :=
  ((cols.find? (fun c => c.id = columnId)).map
    (fun c => (c.tasks.length : Int))).getD 0

/-- The local update of `createRealTask`: append the gateway-returned task
to the matching column's list. -/
def addTaskLocal (cols : List ColumnWithTasks) (columnId : String)
    (newTask : Task) : List ColumnWithTasks :=
  cols.map (fun col =>
    if col.id = columnId then { col with tasks := col.tasks ++ [newTask] }
    else col)

/-- Model of `createRealTask` (useBoards.ts line 274): compute the sort position,
gateway create (`gw`), then append the returned task to that column. -/
def createRealTaskHook (ready : Bool) (st : BoardState) (columnId : String)
    (gw : Except String Task) : Except String (BoardState × Option Task) :=
  if ready = false then .error "Not ready yet" else
  match gw with
  | .ok newTask =>
      .ok ({ st with columns := addTaskLocal st.columns columnId newTask },
           some newTask)
  | .error msg => .ok ({ st with error := some msg }, none)

/-- Splice a task out of its first occurrence: `findIndex` then
`splice(idx, 1)` inside the first column whose list contains the id
(the `for … break` loop of `moveTask`/`updateTask`). -/
def eraseFirstTask (tid : String) : List Task → List Task
  | [] => []
  | t :: ts => if t.id = tid then ts else t :: eraseFirstTask tid ts

def removeTaskFirst (tid : String) : List ColumnWithTasks → List ColumnWithTasks
  | [] => []
  | c :: cs =>
    if c.tasks.any (fun t => t.id = tid) then
      { c with tasks := eraseFirstTask tid c.tasks } :: cs
    else c :: removeTaskFirst tid cs

/-- The local update shared by `moveTask` and `updateTask`: remove the task
from wherever it currently lives, then push the server-returned record into
the column matching `updated.column_id` and stably re-sort that column by
`sort_order`. -/
def moveTaskLocal (cols : List ColumnWithTasks) (tid : String)
    (updated : Task) : List ColumnWithTasks :=
  (removeTaskFirst tid cols).map (fun c =>
    if c.id = updated.column_id then
      { c with tasks := sortTasks (c.tasks ++ [updated]) }
    else c)

/-- Model of `moveTask` (useBoards.ts line 310): gateway update of column and sort
position (`gw` returns the updated row); on success splice the task out and
re-insert sorted; on failure only the error slot changes. -/
def moveTaskHook (ready : Bool) (st : BoardState) (taskId : String)
    (newColumnId : String) (newOrder : Int) (gw : Except String Task) :
    Except String BoardState :=
  if ready = false then .error "Not ready yet" else
  match gw with
  | .ok updated => .ok { st with columns := moveTaskLocal st.columns taskId updated }
  | .error msg => .ok { st with error := some msg }

/-- Model of `updateTask` (useBoards.ts line 343): sanitize the changes, send them to
the gateway (`gw` is a function of the payload actually sent); if the
gateway yields no record force a reload (flag `true`, state untouched);
otherwise splice-and-resort into the server-returned column. -/
def updateTaskHook (ready : Bool) (st : BoardState) (taskId : String)
    (updates : TaskUpdates)
    (gw : TaskUpdates → Except String (Option Task)) :
    Except String (BoardState × Option Task × Bool) :=
  if ready = false then .error "Not ready yet" else
  match gw (sanitizeTaskUpdates updates) with
  | .ok none => .ok (st, none, true)
  | .ok (some updatedTask) =>
      .ok ({ st with columns := moveTaskLocal st.columns taskId updatedTask },
           some updatedTask, false)
  | .error msg => .ok ({ st with error := some msg }, none, false)

/-- Model of `createColumn` (useBoards.ts line 386).  `ready` is the truth value of
`board && user?.id && supabase`. -/
def createColumnHook (ready : Bool) (st : BoardState) (gw : Except String Column) :
    Except String (BoardState × Option Column) :=
  if ready = false then .error "Not ready yet" else
  match gw with
  | .ok newColumn =>
      .ok ({ st with columns := st.columns ++
              [{ id := newColumn.id, title := newColumn.title,
                 board_id := newColumn.board_id, user_id := newColumn.user_id,
                 sort_order := newColumn.sort_order,
                 created_at := newColumn.created_at, tasks := [] }] },
           some newColumn)
  | .error msg => .ok ({ st with error := some msg }, none)

/-- Model of `updateColumn` (useBoards.ts line 403): the source spreads the
server-returned column over the local one, keeping the embedded task list
and overwriting the column fields. -/
def updateColumnHook (ready : Bool) (st : BoardState) (columnId : String)
    (gw : Except String Column) : Except String (BoardState × Option Column) :=
  if ready = false then .error "Not ready yet" else
  match gw with
  | .ok u =>
      .ok ({ st with columns := st.columns.map (fun col =>
              if col.id = columnId then
                { id := u.id, title := u.title, board_id := u.board_id,
                  user_id := u.user_id, sort_order := u.sort_order,
                  created_at := u.created_at, tasks := col.tasks }
              else col) },
           some u)
  | .error msg => .ok ({ st with error := some msg }, none)

/-- Model of the containing-column search of `deleteTask`: the first column
whose task list holds the given id. -/
def findContaining (cols : List ColumnWithTasks) (tid : String) :
    Option ColumnWithTasks :=
  cols.find? (fun c => c.tasks.any (fun t => t.id = tid))

/-- The optimistic removal of `deleteTask`: filter the task out of every
column whose id matches the containing column's id. -/
def removeFromColumns (cols : List ColumnWithTasks) (cid tid : String) :
    List ColumnWithTasks :=
  cols.map (fun c =>
    if c.id = cid then { c with tasks := c.tasks.filter (fun t => t.id ≠ tid) }
    else c)

/-- The rollback of `deleteTask`: `[...tasks.slice(0, index), task,
...tasks.slice(index)]` in every column whose id matches. -/
def reinsertIntoColumns (cols : List ColumnWithTasks) (cid : String)
    (index : Nat) (task : Task) : List ColumnWithTasks :=
  cols.map (fun c =>
    if c.id = cid then
      { c with tasks := c.tasks.take index ++ task :: c.tasks.drop index }
    else c)

/-- Model of `deleteTask` (useBoards.ts line 417): if no column contains the task,
return `undefined` without touching anything and without a gateway call
(third component `false`).  Otherwise optimistically remove it, gateway
delete (`del`); on success return the snapshot, on failure reinsert the
task at its original index and set the error slot. -/
def deleteTaskHook (ready : Bool) (st : BoardState) (taskId : String)
    (del : Except String Unit) :
    Except String (BoardState × Option DeletedSnapshot × Bool) :=
  if ready = false then .error "Not ready yet" else
  match findContaining st.columns taskId with
  | none => .ok (st, none, false)
  | some containing =>
    let index := containing.tasks.findIdx (fun t => t.id = taskId)
    let task := containing.tasks.getD index default
    let removed := removeFromColumns st.columns containing.id taskId
    match del with
    | .ok _ =>
        .ok ({ st with columns := removed },
             some { task := task, columnId := containing.id, index := index },
             true)
    | .error msg =>
        .ok ({ st with columns := reinsertIntoColumns removed containing.id index task,
                       error := some msg }, none, true)

/-! ## Operation sequences on the single board state (for the ordering and
uniqueness invariants).  Each step is one hook call with its gateway
response recorded; the columns after a step are read off the hook's result
(`ready` is `true` throughout, so the fallback is never taken). -/

/-- One controller step together with its oracle response. -/
inductive Op where
  | create (columnId : String) (newTask : Task)
  | createFail (columnId : String) (msg : String)
  | move (taskId newColumnId : String) (newOrder : Int) (updated : Task)
  | moveFail (taskId newColumnId : String) (newOrder : Int) (msg : String)
  | deleteOk (taskId : String)
  | deleteFail (taskId : String) (msg : String)
  deriving DecidableEq, Repr

/-- Embed bare columns into a `useBoard` state. -/
def stOf (cols : List ColumnWithTasks) : BoardState :=
  { board := none, columns := cols, error := none }

/-- Columns of a hook result (the fallback is unreachable for `ready = true`). -/
def colsOf {β : Type} (r : Except String (BoardState × β))
    (fallback : List ColumnWithTasks) : List ColumnWithTasks :=
  match r with
  | .ok (st, _) => st.columns
  | .error _ => fallback

def colsOfMove (r : Except String BoardState)
    (fallback : List ColumnWithTasks) : List ColumnWithTasks :=
  match r with
  | .ok st => st.columns
  | .error _ => fallback

/-- Apply one step to the column state. -/
def applyOp (cols : List ColumnWithTasks) : Op → List ColumnWithTasks
  | .create cid nt => colsOf (createRealTaskHook true (stOf cols) cid (.ok nt)) cols
  | .createFail cid msg =>
      colsOf (createRealTaskHook true (stOf cols) cid (.error msg)) cols
  | .move tid ncid nOrd updated =>
      colsOfMove (moveTaskHook true (stOf cols) tid ncid nOrd (.ok updated)) cols
  | .moveFail tid ncid nOrd msg =>
      colsOfMove (moveTaskHook true (stOf cols) tid ncid nOrd (.error msg)) cols
  | .deleteOk tid => colsOf (deleteTaskHook true (stOf cols) tid (.ok ())) cols
  | .deleteFail tid msg =>
      colsOf (deleteTaskHook true (stOf cols) tid (.error msg)) cols

def applyOps (cols : List ColumnWithTasks) (ops : List Op) : List ColumnWithTasks :=
  ops.foldl applyOp cols

/-- Number of tasks with a given id across all columns. -/
def idCount (cols : List ColumnWithTasks) (tid : String) : Nat :=
  (cols.map (fun c => c.tasks.countP (fun t => t.id = tid))).sum

/-- No two tasks of the list share an identity. -/
def NoDupIds (tasks : List Task) : Prop :=
  (tasks.map (fun t => t.id)).Nodup

/-- No two columns share an identity. -/
def UniqueColIds (cols : List ColumnWithTasks) : Prop :=
  (cols.map (fun c => c.id)).Nodup

/-- No task identity occurs twice anywhere on the board. -/
def GlobalNoDup (cols : List ColumnWithTasks) : Prop :=
  ((cols.map (fun c => c.tasks.map (fun t => t.id))).flatten).Nodup

/-- Every column's task list is sorted ascending by sort position. -/
def SortedAll (cols : List ColumnWithTasks) : Prop :=
  ∀ c ∈ cols, c.tasks.Pairwise (fun a b => a.sort_order ≤ b.sort_order)

/-- The store contract for one step's oracle response: a created task
carries the requested column, the requested sort position (the column's
current task count) and a fresh identity; an updated task carries the
requested identity, column and sort position.  Failure responses are
unconstrained. -/
def OpWF (cols : List ColumnWithTasks) : Op → Prop
  | .create cid nt =>
      nt.column_id = cid ∧ nt.sort_order = computeSortOrder cols cid ∧
        idCount cols nt.id = 0
  | .move tid ncid nOrd updated =>
      updated.id = tid ∧ updated.column_id = ncid ∧ updated.sort_order = nOrd
  | _ => True

/-- The `OpWF` contract along a whole trace. -/
def WFTrace : List ColumnWithTasks → List Op → Prop
  | _, [] => True
  | cols, op :: ops => OpWF cols op ∧ WFTrace (applyOp cols op) ops

/-- A `create` step lands in a column none of whose current sort positions
exceeds its task count (e.g. positions are dense `0..n-1`). -/
def CreateBounded (cols : List ColumnWithTasks) : Op → Prop
  | .create cid _ =>
      ∀ c ∈ cols, c.id = cid → ∀ t ∈ c.tasks, t.sort_order ≤ (c.tasks.length : Int)
  | _ => True

def BoundedTrace : List ColumnWithTasks → List Op → Prop
  | _, [] => True
  | cols, op :: ops => CreateBounded cols op ∧ BoundedTrace (applyOp cols op) ops

instance decOpWF (cols : List ColumnWithTasks) : (op : Op) → Decidable (OpWF cols op)
  | .create _ _ => inferInstanceAs (Decidable (_ ∧ _ ∧ _))
  | .createFail _ _ => inferInstanceAs (Decidable True)
  | .move _ _ _ _ => inferInstanceAs (Decidable (_ ∧ _ ∧ _))
  | .moveFail _ _ _ _ => inferInstanceAs (Decidable True)
  | .deleteOk _ => inferInstanceAs (Decidable True)
  | .deleteFail _ _ => inferInstanceAs (Decidable True)

instance decWFTrace : (cols : List ColumnWithTasks) → (ops : List Op) →
    Decidable (WFTrace cols ops)
  | _, [] => .isTrue trivial
  | cols, op :: ops =>
      haveI := decWFTrace (applyOp cols op) ops
      inferInstanceAs (Decidable (_ ∧ _))

instance decSortedAll (cols : List ColumnWithTasks) : Decidable (SortedAll cols) :=
  inferInstanceAs
    (Decidable (∀ c ∈ cols,
      c.tasks.Pairwise (fun a b : Task => a.sort_order ≤ b.sort_order)))

instance decUniqueColIds (cols : List ColumnWithTasks) :
    Decidable (UniqueColIds cols) :=
  inferInstanceAs (Decidable (List.Nodup _))

instance decGlobalNoDup (cols : List ColumnWithTasks) :
    Decidable (GlobalNoDup cols) :=
  inferInstanceAs (Decidable (List.Nodup _))

instance decNoDupIds (tasks : List Task) : Decidable (NoDupIds tasks) :=
  inferInstanceAs (Decidable (List.Nodup _))

instance decCreateBounded (cols : List ColumnWithTasks) :
    (op : Op) → Decidable (CreateBounded cols op)
  | .create _ _ => inferInstanceAs (Decidable (∀ _ ∈ _, _))
  | .createFail _ _ => inferInstanceAs (Decidable True)
  | .move _ _ _ _ => inferInstanceAs (Decidable True)
  | .moveFail _ _ _ _ => inferInstanceAs (Decidable True)
  | .deleteOk _ => inferInstanceAs (Decidable True)
  | .deleteFail _ _ => inferInstanceAs (Decidable True)

instance decBoundedTrace : (cols : List ColumnWithTasks) → (ops : List Op) →
    Decidable (BoundedTrace cols ops)
  | _, [] => .isTrue trivial
  | cols, op :: ops =>
      haveI := decBoundedTrace (applyOp cols op) ops
      inferInstanceAs (Decidable (_ ∧ _))

/-! ## Lemmas about the stable insertion sort -/

theorem countP_insertLe {α : Type} (le : α → α → Bool) (p : α → Bool) (x : α)
    (l : List α) :
    (insertLe le x l).countP p = l.countP p + (if p x then 1 else 0) := by
  induction l with
  | nil => simp [insertLe, List.countP_cons]
  | cons y ys ih =>
    cases h : le x y with
    | true =>
      simp only [insertLe, h, if_true, List.countP_cons]
    | false =>
      simp only [insertLe, h, Bool.false_eq_true, if_false, List.countP_cons, ih]
      omega

theorem countP_sortLe {α : Type} (le : α → α → Bool) (p : α → Bool)
    (l : List α) : (sortLe le l).countP p = l.countP p := by
  induction l with
  | nil => rfl
  | cons x xs ih =>
    simp [sortLe, countP_insertLe, ih, List.countP_cons]

theorem mem_insertLe {α : Type} (le : α → α → Bool) (x y : α) (l : List α) :
    y ∈ insertLe le x l ↔ y = x ∨ y ∈ l := by
  induction l with
  | nil => simp [insertLe]
  | cons z zs ih =>
    cases h : le x z with
    | true => simp [insertLe, h]
    | false =>
      simp only [insertLe, h, Bool.false_eq_true, if_false, List.mem_cons, ih]
      tauto

theorem mem_sortLe {α : Type} (le : α → α → Bool) (y : α) (l : List α) :
    y ∈ sortLe le l ↔ y ∈ l := by
  induction l with
  | nil => simp [sortLe]
  | cons x xs ih => simp [sortLe, mem_insertLe, ih]

theorem pairwise_insertLe {α : Type} (le : α → α → Bool)
    (htot : ∀ a b, le a b = false → le b a = true)
    (htrans : ∀ a b c, le a b = true → le b c = true → le a c = true)
    (x : α) (l : List α)
    (hl : l.Pairwise (fun a b => le a b = true)) :
    (insertLe le x l).Pairwise (fun a b => le a b = true) := by
  induction l with
  | nil => simp [insertLe]
  | cons y ys ih =>
    rcases List.pairwise_cons.mp hl with ⟨hy, hys⟩
    cases h : le x y with
    | true =>
      simp only [insertLe, h, if_true]
      refine List.pairwise_cons.mpr ⟨?_, hl⟩
      intro z hz
      rcases List.mem_cons.mp hz with rfl | hz
      · exact h
      · exact htrans x y z h (hy z hz)
    | false =>
      simp only [insertLe, h, Bool.false_eq_true, if_false]
      refine List.pairwise_cons.mpr ⟨?_, ih hys⟩
      intro z hz
      rcases (mem_insertLe le x z ys).mp hz with hzx | hz
      · rw [hzx]
        exact htot x y h
      · exact hy z hz

theorem pairwise_sortLe {α : Type} (le : α → α → Bool)
    (htot : ∀ a b, le a b = false → le b a = true)
    (htrans : ∀ a b c, le a b = true → le b c = true → le a c = true)
    (l : List α) : (sortLe le l).Pairwise (fun a b => le a b = true) := by
  induction l with
  | nil => simp [sortLe]
  | cons x xs ih => exact pairwise_insertLe le htot htrans x _ ih

theorem pairwise_sortTasks (l : List Task) :
    (sortTasks l).Pairwise (fun a b => a.sort_order ≤ b.sort_order) := by
  have h := pairwise_sortLe taskLe
    (fun a b hab => by
      simp only [taskLe, decide_eq_false_iff_not, not_le] at hab
      simpa [taskLe] using le_of_lt hab)
    (fun a b c hab hbc => by
      simp only [taskLe, decide_eq_true_eq] at hab hbc ⊢
      exact le_trans hab hbc) l
  refine h.imp ?_
  intro a b hab
  simpa [taskLe] using hab

theorem countP_sortTasks (p : Task → Bool) (l : List Task) :
    (sortTasks l).countP p = l.countP p := countP_sortLe taskLe p l

/-! ## Counting bridges between `Nodup` and `countP` -/

theorem count_map_eq_countP {α β : Type} [DecidableEq β] (f : α → β)
    (l : List α) (b : β) :
    (l.map f).count b = l.countP (fun x => f x = b) := by
  induction l with
  | nil => rfl
  | cons x xs ih =>
    simp [List.count_cons, List.countP_cons, ih]

theorem nodup_map_iff_countP {α β : Type} [DecidableEq β] (f : α → β)
    (l : List α) :
    (l.map f).Nodup ↔ ∀ b, l.countP (fun x => f x = b) ≤ 1 := by
  rw [List.nodup_iff_count_le_one]
  constructor
  · intro h b
    simpa [count_map_eq_countP] using h b
  · intro h b
    simpa [count_map_eq_countP] using h b

theorem idCount_nil (tid : String) : idCount [] tid = 0 := rfl

theorem idCount_cons (c : ColumnWithTasks) (cs : List ColumnWithTasks)
    (tid : String) :
    idCount (c :: cs) tid = c.tasks.countP (fun t => t.id = tid) + idCount cs tid := by
  simp [idCount]

theorem idCount_eq_count_flatten (cols : List ColumnWithTasks) (tid : String) :
    idCount cols tid
      = ((cols.map (fun c => c.tasks.map (fun t => t.id))).flatten).count tid := by
  induction cols with
  | nil => rfl
  | cons c cs ih =>
    simp [idCount_cons, List.count_append, ih, count_map_eq_countP]

theorem globalNoDup_iff (cols : List ColumnWithTasks) :
    GlobalNoDup cols ↔ ∀ tid, idCount cols tid ≤ 1 := by
  rw [GlobalNoDup, List.nodup_iff_count_le_one]
  constructor
  · intro h tid
    rw [idCount_eq_count_flatten]
    exact h tid
  · intro h tid
    rw [← idCount_eq_count_flatten]
    exact h tid

theorem uniqueColIds_iff (cols : List ColumnWithTasks) :
    UniqueColIds cols ↔ ∀ cid, cols.countP (fun c => c.id = cid) ≤ 1 :=
  nodup_map_iff_countP _ cols

theorem noDupIds_iff (tasks : List Task) :
    NoDupIds tasks ↔ ∀ tid, tasks.countP (fun t => t.id = tid) ≤ 1 :=
  nodup_map_iff_countP _ tasks

/-! ## Preservation of column identities -/

theorem colIds_map_of_preserve (f : ColumnWithTasks → ColumnWithTasks)
    (hf : ∀ c, (f c).id = c.id) (cols : List ColumnWithTasks) :
    (cols.map f).map (fun c => c.id) = cols.map (fun c => c.id) := by
  induction cols with
  | nil => rfl
  | cons c cs ih => simp [hf, ih]

theorem colIds_addTaskLocal (cols : List ColumnWithTasks) (cid : String)
    (nt : Task) :
    (addTaskLocal cols cid nt).map (fun c => c.id) = cols.map (fun c => c.id) := by
  refine colIds_map_of_preserve _ ?_ cols
  intro c
  by_cases h : c.id = cid <;> simp [h]

theorem colIds_removeFromColumns (cols : List ColumnWithTasks) (cid tid : String) :
    (removeFromColumns cols cid tid).map (fun c => c.id)
      = cols.map (fun c => c.id) := by
  refine colIds_map_of_preserve _ ?_ cols
  intro c
  by_cases h : c.id = cid <;> simp [h]

theorem colIds_reinsertIntoColumns (cols : List ColumnWithTasks) (cid : String)
    (i : Nat) (task : Task) :
    (reinsertIntoColumns cols cid i task).map (fun c => c.id)
      = cols.map (fun c => c.id) := by
  refine colIds_map_of_preserve _ ?_ cols
  intro c
  by_cases h : c.id = cid <;> simp [h]

theorem colIds_removeTaskFirst (tid : String) (cols : List ColumnWithTasks) :
    (removeTaskFirst tid cols).map (fun c => c.id) = cols.map (fun c => c.id) := by
  induction cols with
  | nil => rfl
  | cons c cs ih =>
    cases h : c.tasks.any (fun t => t.id = tid) with
    | true => simp [removeTaskFirst, h]
    | false => simp [removeTaskFirst, h, ih]

theorem colIds_moveTaskLocal (cols : List ColumnWithTasks) (tid : String)
    (u : Task) :
    (moveTaskLocal cols tid u).map (fun c => c.id) = cols.map (fun c => c.id) := by
  rw [moveTaskLocal]
  rw [colIds_map_of_preserve _ ?_ (removeTaskFirst tid cols)]
  · exact colIds_removeTaskFirst tid cols
  · intro c
    by_cases h : c.id = u.column_id <;> simp [h]

/-! ## `eraseFirstTask` -/

theorem eraseFirstTask_sublist (tid : String) (l : List Task) :
    (eraseFirstTask tid l).Sublist l := by
  induction l with
  | nil => simp [eraseFirstTask]
  | cons t ts ih =>
    by_cases h : t.id = tid
    · simp only [eraseFirstTask, h, if_pos]
      exact (List.sublist_cons_self t ts)
    · simp only [eraseFirstTask, h, if_neg, not_false_iff]
      exact ih.cons₂ t

theorem countP_eraseFirstTask_le (tid : String) (p : Task → Bool) (l : List Task) :
    (eraseFirstTask tid l).countP p ≤ l.countP p :=
  (eraseFirstTask_sublist tid l).countP_le p

theorem countP_eraseFirstTask_self (tid : String) (l : List Task)
    (h : l.any (fun t => t.id = tid) = true) :
    (eraseFirstTask tid l).countP (fun t => t.id = tid) + 1
      = l.countP (fun t => t.id = tid) := by
  induction l with
  | nil => simp at h
  | cons t ts ih =>
    by_cases ht : t.id = tid
    · simp [eraseFirstTask, ht, List.countP_cons]
    · have hts : ts.any (fun t => t.id = tid) = true := by
        rcases List.any_eq_true.mp h with ⟨x, hx, hpx⟩
        rcases List.mem_cons.mp hx with rfl | hx
        · simp [ht] at hpx
        · exact List.any_eq_true.mpr ⟨x, hx, hpx⟩
      simp [eraseFirstTask, ht, List.countP_cons, ih hts]

/-! ## `idCount` arithmetic for each local mutation -/

theorem addTaskLocal_cons (c : ColumnWithTasks) (cs : List ColumnWithTasks)
    (cid : String) (nt : Task) :
    addTaskLocal (c :: cs) cid nt
      = (if c.id = cid then { c with tasks := c.tasks ++ [nt] } else c)
          :: addTaskLocal cs cid nt := rfl

theorem removeFromColumns_cons (c : ColumnWithTasks) (cs : List ColumnWithTasks)
    (cid tid : String) :
    removeFromColumns (c :: cs) cid tid
      = (if c.id = cid then { c with tasks := c.tasks.filter (fun t => t.id ≠ tid) }
         else c) :: removeFromColumns cs cid tid := rfl

theorem reinsertIntoColumns_cons (c : ColumnWithTasks) (cs : List ColumnWithTasks)
    (cid : String) (i : Nat) (task : Task) :
    reinsertIntoColumns (c :: cs) cid i task
      = (if c.id = cid then { c with tasks := c.tasks.take i ++ task :: c.tasks.drop i }
         else c) :: reinsertIntoColumns cs cid i task := rfl

theorem idCount_addTaskLocal (cols : List ColumnWithTasks) (cid : String)
    (nt : Task) (tid : String) :
    idCount (addTaskLocal cols cid nt) tid
      = idCount cols tid
        + (if nt.id = tid then cols.countP (fun c => c.id = cid) else 0) := by
  induction cols with
  | nil => simp [addTaskLocal, idCount]
  | cons c cs ih =>
    rw [addTaskLocal_cons]
    by_cases h : c.id = cid <;> by_cases hid : nt.id = tid <;>
      simp [h, hid, idCount_cons, List.countP_append, List.countP_cons, ih] <;>
      omega

theorem idCount_removeTaskFirst_le (tid tid' : String)
    (cols : List ColumnWithTasks) :
    idCount (removeTaskFirst tid cols) tid' ≤ idCount cols tid' := by
  induction cols with
  | nil => simp [removeTaskFirst]
  | cons c cs ih =>
    cases h : c.tasks.any (fun t => t.id = tid) with
    | true =>
      simp only [removeTaskFirst, h, if_true, idCount_cons]
      have := countP_eraseFirstTask_le tid (fun t => t.id = tid') c.tasks
      omega
    | false =>
      simp only [removeTaskFirst, h, Bool.false_eq_true, if_false, idCount_cons]
      omega

theorem idCount_removeTaskFirst_self (tid : String) (cols : List ColumnWithTasks)
    (hg : idCount cols tid ≤ 1) :
    idCount (removeTaskFirst tid cols) tid = 0 := by
  induction cols with
  | nil => simp [removeTaskFirst, idCount]
  | cons c cs ih =>
    cases h : c.tasks.any (fun t => t.id = tid) with
    | true =>
      simp only [removeTaskFirst, h, if_true, idCount_cons]
      have h1 := countP_eraseFirstTask_self tid c.tasks h
      simp only [idCount_cons] at hg
      omega
    | false =>
      have hc : c.tasks.countP (fun t => t.id = tid) = 0 :=
        List.countP_eq_zero.mpr (List.any_eq_false.mp h)
      simp only [removeTaskFirst, h, Bool.false_eq_true, if_false, idCount_cons, hc]
      simp only [idCount_cons, hc] at hg
      have := ih (by omega)
      omega

theorem idCount_removeFromColumns_le (cols : List ColumnWithTasks)
    (cid tid tid' : String) :
    idCount (removeFromColumns cols cid tid) tid' ≤ idCount cols tid' := by
  induction cols with
  | nil => simp [removeFromColumns, idCount]
  | cons c cs ih =>
    by_cases h : c.id = cid
    · simp only [removeFromColumns, List.map_cons, h, if_pos, idCount_cons] at *
      have : (c.tasks.filter (fun t => t.id ≠ tid)).countP (fun t => t.id = tid')
          ≤ c.tasks.countP (fun t => t.id = tid') :=
        (List.filter_sublist c.tasks).countP_le _
      omega
    · simp only [removeFromColumns, List.map_cons, h, if_neg, not_false_iff,
        idCount_cons] at *
      omega

theorem idCount_moveInsert (cols : List ColumnWithTasks) (u : Task)
    (tid' : String) :
    idCount (cols.map (fun c =>
      if c.id = u.column_id then { c with tasks := sortTasks (c.tasks ++ [u]) }
      else c)) tid'
      = idCount cols tid'
        + (if u.id = tid' then cols.countP (fun c => c.id = u.column_id) else 0) := by
  induction cols with
  | nil => simp [idCount]
  | cons c cs ih =>
    rw [List.map_cons]
    by_cases h : c.id = u.column_id <;> by_cases hid : u.id = tid' <;>
      simp [h, hid, idCount_cons, countP_sortTasks, List.countP_append,
        List.countP_cons, ih] <;>
      omega

/-! ## The rollback of `deleteTask` restores the pre-call columns -/

theorem filter_ne_of_countP_zero (tid : String) (l : List Task)
    (h : l.countP (fun t => t.id = tid) = 0) :
    l.filter (fun t => t.id ≠ tid) = l := by
  apply List.filter_eq_self.mpr
  intro t ht
  have := List.countP_eq_zero.mp h t ht
  simpa using this

/-- Filtering the unique occurrence of `tid` out of a task list and splicing
the recorded task back at the recorded index restores the list exactly. -/
theorem col_restore (tid : String) (l : List Task)
    (h1 : l.countP (fun t => t.id = tid) = 1) :
    (l.filter (fun t => t.id ≠ tid)).take (l.findIdx (fun t => t.id = tid))
      ++ (l.getD (l.findIdx (fun t => t.id = tid)) default)
        :: (l.filter (fun t => t.id ≠ tid)).drop (l.findIdx (fun t => t.id = tid))
      = l := by
  induction l with
  | nil => simp at h1
  | cons t ts ih =>
    by_cases ht : t.id = tid
    · have hts : ts.countP (fun x => x.id = tid) = 0 := by
        rw [List.countP_cons_of_pos _ _ (by simpa using ht)] at h1
        omega
      have hfil : ts.filter (fun x => x.id ≠ tid) = ts :=
        filter_ne_of_countP_zero _ _ hts
      have hidx0 : (t :: ts).findIdx (fun x => x.id = tid) = 0 := by
        simp [List.findIdx_cons, ht]
      have hfc : (t :: ts).filter (fun x => x.id ≠ tid) = ts := by
        rw [List.filter_cons, if_neg (by simp [ht])]
        exact hfil
      rw [hidx0, hfc]
      simp
    · have h1' : ts.countP (fun x => x.id = tid) = 1 := by
        rw [List.countP_cons_of_neg _ _ (by simpa using ht)] at h1
        exact h1
      have hidx : (t :: ts).findIdx (fun x => x.id = tid)
          = ts.findIdx (fun x => x.id = tid) + 1 := by
        simp [List.findIdx_cons, ht]
      have hfc : (t :: ts).filter (fun x => x.id ≠ tid)
          = t :: ts.filter (fun x => x.id ≠ tid) := by
        rw [List.filter_cons]
        simp [ht]
      rw [hidx, hfc, List.take_succ_cons, List.getD_cons_succ,
        List.drop_succ_cons, List.cons_append, ih h1']

theorem removeFromColumns_of_no_match (cols : List ColumnWithTasks)
    (cid tid : String) (h : ∀ c ∈ cols, c.id ≠ cid) :
    removeFromColumns cols cid tid = cols := by
  induction cols with
  | nil => rfl
  | cons c cs ih =>
    rw [removeFromColumns_cons, if_neg (h c (by simp)),
      ih (fun c' hc' => h c' (by simp [hc']))]

theorem reinsertIntoColumns_of_no_match (cols : List ColumnWithTasks)
    (cid : String) (i : Nat) (task : Task) (h : ∀ c ∈ cols, c.id ≠ cid) :
    reinsertIntoColumns cols cid i task = cols := by
  induction cols with
  | nil => rfl
  | cons c cs ih =>
    rw [reinsertIntoColumns_cons, if_neg (h c (by simp)),
      ih (fun c' hc' => h c' (by simp [hc']))]

theorem findContaining_cons (c : ColumnWithTasks) (cs : List ColumnWithTasks)
    (tid : String) :
    findContaining (c :: cs) tid
      = if c.tasks.any (fun t => t.id = tid) then some c
        else findContaining cs tid := by
  cases h : c.tasks.any (fun t => t.id = tid) with
  | true => simp [findContaining, List.find?_cons_of_pos, h]
  | false => simp [findContaining, List.find?_cons_of_neg, h]

/-- Failure path of `deleteTask`: removing the task from the containing
column and reinserting it at its recorded index is the identity on a
well-formed board (unique column ids, globally unique task ids). -/
theorem deleteFail_restore (cols : List ColumnWithTasks) (tid : String)
    (c : ColumnWithTasks)
    (hu : ∀ cid, cols.countP (fun c' => c'.id = cid) ≤ 1)
    (hg : ∀ tid', idCount cols tid' ≤ 1)
    (hfind : findContaining cols tid = some c) :
    reinsertIntoColumns (removeFromColumns cols c.id tid) c.id
      (c.tasks.findIdx (fun t => t.id = tid))
      (c.tasks.getD (c.tasks.findIdx (fun t => t.id = tid)) default) = cols := by
  induction cols with
  | nil => simp [findContaining] at hfind
  | cons c0 cs ih =>
    rw [findContaining_cons] at hfind
    cases h0 : c0.tasks.any (fun t => t.id = tid) with
    | true =>
      rw [h0, if_pos rfl] at hfind
      have hc : c0 = c := by
        injection hfind
      subst hc
      have htail : ∀ c' ∈ cs, c'.id ≠ c0.id := by
        intro c' hc' heq
        have h2 : 0 < cs.countP (fun x => x.id = c0.id) :=
          List.countP_pos_iff.mpr ⟨c', hc', by simpa using heq⟩
        have h3 := hu c0.id
        rw [List.countP_cons_of_pos _ _ (by simp)] at h3
        omega
      rw [removeFromColumns_cons, reinsertIntoColumns_cons, if_pos rfl,
        if_pos rfl, removeFromColumns_of_no_match cs _ _ htail,
        reinsertIntoColumns_of_no_match cs _ _ _ htail]
      have h1 : c0.tasks.countP (fun t => t.id = tid) = 1 := by
        have hpos : 0 < c0.tasks.countP (fun t => t.id = tid) := by
          rcases List.any_eq_true.mp h0 with ⟨t, ht, hpt⟩
          exact List.countP_pos_iff.mpr ⟨t, ht, hpt⟩
        have := hg tid
        rw [idCount_cons] at this
        omega
      have hres := col_restore tid c0.tasks h1
      rw [hres]
    | false =>
      rw [h0] at hfind
      simp only [Bool.false_eq_true, if_false] at hfind
      have hmem : c ∈ cs := List.mem_of_find?_eq_some hfind
      have hcne : ¬ c0.id = c.id := by
        intro heq
        have h2 : 0 < cs.countP (fun x => x.id = c0.id) :=
          List.countP_pos_iff.mpr ⟨c, hmem, by simpa using heq.symm⟩
        have h3 := hu c0.id
        rw [List.countP_cons_of_pos _ _ (by simp)] at h3
        omega
      rw [removeFromColumns_cons, reinsertIntoColumns_cons, if_neg hcne,
        if_neg hcne]
      have hu' : ∀ cid, cs.countP (fun c' => c'.id = cid) ≤ 1 := by
        intro cid
        have := hu cid
        simp only [List.countP_cons] at this
        omega
      have hg' : ∀ tid', idCount cs tid' ≤ 1 := by
        intro tid'
        have := hg tid'
        rw [idCount_cons] at this
        omega
      rw [ih hu' hg' hfind]

/-! ## Sortedness preservation -/

theorem sortedAll_removeTaskFirst (tid : String) (cols : List ColumnWithTasks)
    (hs : SortedAll cols) : SortedAll (removeTaskFirst tid cols) := by
  induction cols with
  | nil => simpa [removeTaskFirst] using hs
  | cons c cs ih =>
    intro c' hc'
    cases h : c.tasks.any (fun t => t.id = tid) with
    | true =>
      rw [removeTaskFirst, if_pos (by simp [h])] at hc'
      rcases List.mem_cons.mp hc' with rfl | hc'
      · exact (hs c (by simp)).sublist (eraseFirstTask_sublist tid c.tasks)
      · exact hs c' (by simp [hc'])
    | false =>
      rw [removeTaskFirst, if_neg (by simp [h])] at hc'
      rcases List.mem_cons.mp hc' with rfl | hc'
      · exact hs c' (by simp)
      · exact ih (fun x hx => hs x (by simp [hx])) c' hc'

theorem sortedAll_removeFromColumns (cols : List ColumnWithTasks)
    (cid tid : String) (hs : SortedAll cols) :
    SortedAll (removeFromColumns cols cid tid) := by
  intro c' hc'
  rcases List.mem_map.mp hc' with ⟨c, hc, rfl⟩
  by_cases h : c.id = cid
  · simp only [h, if_pos]
    exact (hs c hc).sublist (List.filter_sublist c.tasks)
  · simp only [h, if_neg, not_false_iff]
    exact hs c hc

theorem sortedAll_moveTaskLocal (cols : List ColumnWithTasks) (tid : String)
    (u : Task) (hs : SortedAll cols) : SortedAll (moveTaskLocal cols tid u) := by
  intro c' hc'
  rcases List.mem_map.mp hc' with ⟨c, hc, rfl⟩
  by_cases h : c.id = u.column_id
  · simp only [h, if_pos]
    exact pairwise_sortTasks _
  · simp only [h, if_neg, not_false_iff]
    exact sortedAll_removeTaskFirst tid cols hs c hc

theorem find?_unique_col (cols : List ColumnWithTasks) (cid : String)
    (c : ColumnWithTasks)
    (hu : ∀ x, cols.countP (fun c' => c'.id = x) ≤ 1)
    (hmem : c ∈ cols) (hid : c.id = cid) :
    cols.find? (fun c' => c'.id = cid) = some c := by
  induction cols with
  | nil => simp at hmem
  | cons c0 cs ih =>
    by_cases h0 : c0.id = cid
    · rw [List.find?_cons_of_pos _ (by simpa using h0)]
      rcases List.mem_cons.mp hmem with rfl | hmem'
      · rfl
      · exfalso
        have h2 : 0 < cs.countP (fun x => x.id = cid) :=
          List.countP_pos_iff.mpr ⟨c, hmem', by simpa using hid⟩
        have h3 := hu cid
        rw [List.countP_cons_of_pos _ _ (by simpa using h0)] at h3
        omega
    · rw [List.find?_cons_of_neg _ (by simpa using h0)]
      rcases List.mem_cons.mp hmem with rfl | hmem'
      · exact absurd hid h0
      · refine ih ?_ hmem'
        intro x
        have := hu x
        rw [List.countP_cons] at this
        omega

theorem sortedAll_addTaskLocal (cols : List ColumnWithTasks) (cid : String)
    (nt : Task)
    (hu : ∀ x, cols.countP (fun c' => c'.id = x) ≤ 1)
    (hso : nt.sort_order = computeSortOrder cols cid)
    (hb : ∀ c ∈ cols, c.id = cid → ∀ t ∈ c.tasks, t.sort_order ≤ (c.tasks.length : Int))
    (hs : SortedAll cols) : SortedAll (addTaskLocal cols cid nt) := by
  intro c' hc'
  rcases List.mem_map.mp hc' with ⟨c, hc, rfl⟩
  by_cases h : c.id = cid
  · simp only [h, if_pos]
    rw [List.pairwise_append]
    refine ⟨hs c hc, by simp, ?_⟩
    intro a ha b hb'
    rcases List.mem_singleton.mp hb' with rfl
    have hfind : cols.find? (fun c' => c'.id = cid) = some c :=
      find?_unique_col cols cid c hu hc h
    have hcs : computeSortOrder cols cid = (c.tasks.length : Int) := by
      rw [computeSortOrder, hfind]
      rfl
    rw [hso, hcs]
    exact hb c hc h a ha
  · simp only [h, if_neg, not_false_iff]
    exact hs c hc

/-! ## Unfolding `applyOp` -/

theorem applyOp_create (cols : List ColumnWithTasks) (cid : String) (nt : Task) :
    applyOp cols (.create cid nt) = addTaskLocal cols cid nt := rfl

theorem applyOp_createFail (cols : List ColumnWithTasks) (cid msg : String) :
    applyOp cols (.createFail cid msg) = cols := rfl

theorem applyOp_move (cols : List ColumnWithTasks) (tid ncid : String)
    (nOrd : Int) (u : Task) :
    applyOp cols (.move tid ncid nOrd u) = moveTaskLocal cols tid u := rfl

theorem applyOp_moveFail (cols : List ColumnWithTasks) (tid ncid : String)
    (nOrd : Int) (msg : String) :
    applyOp cols (.moveFail tid ncid nOrd msg) = cols := rfl

theorem applyOp_deleteOk (cols : List ColumnWithTasks) (tid : String) :
    applyOp cols (.deleteOk tid)
      = match findContaining cols tid with
        | none => cols
        | some c => removeFromColumns cols c.id tid := by
  cases h : findContaining cols tid with
  | none => simp [applyOp, deleteTaskHook, stOf, colsOf, h]
  | some c => simp [applyOp, deleteTaskHook, stOf, colsOf, h]

theorem applyOp_deleteFail (cols : List ColumnWithTasks) (tid msg : String) :
    applyOp cols (.deleteFail tid msg)
      = match findContaining cols tid with
        | none => cols
        | some c =>
            reinsertIntoColumns (removeFromColumns cols c.id tid) c.id
              (c.tasks.findIdx (fun t => t.id = tid))
              (c.tasks.getD (c.tasks.findIdx (fun t => t.id = tid)) default) := by
  cases h : findContaining cols tid with
  | none => simp [applyOp, deleteTaskHook, stOf, colsOf, h]
  | some c => simp [applyOp, deleteTaskHook, stOf, colsOf, h]

/-! ## Invariant preservation along operation traces -/

theorem countP_colIds_eq (cols cols' : List ColumnWithTasks)
    (h : cols'.map (fun c => c.id) = cols.map (fun c => c.id)) (cid : String) :
    cols'.countP (fun c => c.id = cid) = cols.countP (fun c => c.id = cid) := by
  rw [← count_map_eq_countP (fun c => c.id) cols' cid,
    ← count_map_eq_countP (fun c => c.id) cols cid, h]

theorem applyOp_colIds (cols : List ColumnWithTasks) (op : Op) :
    (applyOp cols op).map (fun c => c.id) = cols.map (fun c => c.id) := by
  cases op with
  | create cid nt => rw [applyOp_create, colIds_addTaskLocal]
  | createFail cid msg => rfl
  | move tid ncid nOrd u => rw [applyOp_move, colIds_moveTaskLocal]
  | moveFail tid ncid nOrd msg => rfl
  | deleteOk tid =>
    rw [applyOp_deleteOk]
    cases h : findContaining cols tid with
    | none => rfl
    | some c => exact colIds_removeFromColumns cols c.id tid
  | deleteFail tid msg =>
    rw [applyOp_deleteFail]
    cases h : findContaining cols tid with
    | none => rfl
    | some c =>
      rw [colIds_reinsertIntoColumns, colIds_removeFromColumns]

theorem countP_mem_le_idCount (cols : List ColumnWithTasks)
    (c : ColumnWithTasks) (hc : c ∈ cols) (tid : String) :
    c.tasks.countP (fun t => t.id = tid) ≤ idCount cols tid := by
  induction cols with
  | nil => simp at hc
  | cons c0 cs ih =>
    rw [idCount_cons]
    rcases List.mem_cons.mp hc with rfl | hc'
    · omega
    · have := ih hc'
      omega

theorem noDupIds_of_global (cols : List ColumnWithTasks)
    (hg : ∀ tid, idCount cols tid ≤ 1) :
    ∀ c ∈ cols, NoDupIds c.tasks := by
  intro c hc
  rw [noDupIds_iff]
  intro tid
  exact le_trans (countP_mem_le_idCount cols c hc tid) (hg tid)

theorem applyOp_idCount_le_one (cols : List ColumnWithTasks) (op : Op)
    (hu : forall cid, cols.countP (fun c => c.id = cid) <= 1)
    (hg : forall tid, idCount cols tid <= 1)
    (hwf : OpWF cols op) :
    forall tid, idCount (applyOp cols op) tid <= 1 := by
  intro tid
  cases op with
  | create cid nt =>
    have hwf' : nt.column_id = cid ∧ nt.sort_order = computeSortOrder cols cid ∧
        idCount cols nt.id = 0 := hwf
    obtain ⟨h1, h2, h3⟩ := hwf'
    rw [applyOp_create, idCount_addTaskLocal]
    by_cases hid : nt.id = tid
    · rw [if_pos hid, ← hid, h3]
      have := hu cid
      omega
    · rw [if_neg hid]
      have := hg tid
      omega
  | createFail cid msg => exact hg tid
  | move tid0 ncid nOrd u =>
    have hwf' : u.id = tid0 ∧ u.column_id = ncid ∧ u.sort_order = nOrd := hwf
    obtain ⟨h1, h2, h3⟩ := hwf'
    rw [applyOp_move, moveTaskLocal, idCount_moveInsert]
    by_cases hid : u.id = tid
    · rw [if_pos hid]
      have hzero : idCount (removeTaskFirst tid0 cols) tid = 0 := by
        rw [← hid, h1] at *
        exact idCount_removeTaskFirst_self _ cols (hg _)
      have hcp : (removeTaskFirst tid0 cols).countP (fun c => c.id = u.column_id)
          = cols.countP (fun c => c.id = u.column_id) :=
        countP_colIds_eq cols _ (colIds_removeTaskFirst tid0 cols) u.column_id
      rw [hzero, hcp]
      have := hu u.column_id
      omega
    · rw [if_neg hid]
      have h4 := idCount_removeTaskFirst_le tid0 tid cols
      have := hg tid
      omega
  | moveFail tid0 ncid nOrd msg => exact hg tid
  | deleteOk tid0 =>
    rw [applyOp_deleteOk]
    cases h : findContaining cols tid0 with
    | none => exact hg tid
    | some c =>
      show idCount (removeFromColumns cols c.id tid0) tid ≤ 1
      have h4 := idCount_removeFromColumns_le cols c.id tid0 tid
      have h5 := hg tid
      omega
  | deleteFail tid0 msg =>
    rw [applyOp_deleteFail]
    cases h : findContaining cols tid0 with
    | none => exact hg tid
    | some c =>
      show idCount (reinsertIntoColumns (removeFromColumns cols c.id tid0) c.id
        (c.tasks.findIdx (fun t => t.id = tid0))
        (c.tasks.getD (c.tasks.findIdx (fun t => t.id = tid0)) default)) tid ≤ 1
      rw [deleteFail_restore cols tid0 c hu hg h]
      exact hg tid

theorem applyOp_sortedAll (cols : List ColumnWithTasks) (op : Op)
    (hu : forall cid, cols.countP (fun c => c.id = cid) <= 1)
    (hg : forall tid, idCount cols tid <= 1)
    (hwf : OpWF cols op) (hb : CreateBounded cols op) (hs : SortedAll cols) :
    SortedAll (applyOp cols op) := by
  cases op with
  | create cid nt =>
    have hwf' : nt.column_id = cid ∧ nt.sort_order = computeSortOrder cols cid ∧
        idCount cols nt.id = 0 := hwf
    obtain ⟨h1, h2, h3⟩ := hwf'
    rw [applyOp_create]
    exact sortedAll_addTaskLocal cols cid nt hu h2 hb hs
  | createFail cid msg => exact hs
  | move tid0 ncid nOrd u =>
    rw [applyOp_move]
    exact sortedAll_moveTaskLocal cols tid0 u hs
  | moveFail tid0 ncid nOrd msg => exact hs
  | deleteOk tid0 =>
    rw [applyOp_deleteOk]
    cases h : findContaining cols tid0 with
    | none => exact hs
    | some c => exact sortedAll_removeFromColumns cols c.id tid0 hs
  | deleteFail tid0 msg =>
    rw [applyOp_deleteFail]
    cases h : findContaining cols tid0 with
    | none => exact hs
    | some c =>
      show SortedAll (reinsertIntoColumns (removeFromColumns cols c.id tid0) c.id
        (c.tasks.findIdx (fun t => t.id = tid0))
        (c.tasks.getD (c.tasks.findIdx (fun t => t.id = tid0)) default))
      rw [deleteFail_restore cols tid0 c hu hg h]
      exact hs

/-- Invariants carried along a whole well-formed trace. -/
theorem trace_invariants (ops : List Op) :
    forall cols : List ColumnWithTasks,
      (forall cid, cols.countP (fun c => c.id = cid) <= 1) ->
      (forall tid, idCount cols tid <= 1) ->
      WFTrace cols ops ->
      ((applyOps cols ops).map (fun c => c.id) = cols.map (fun c => c.id))
      /\ (forall tid, idCount (applyOps cols ops) tid <= 1)
      /\ (SortedAll cols -> BoundedTrace cols ops -> SortedAll (applyOps cols ops)) := by
  induction ops with
  | nil =>
    intro cols hu hg _
    exact ⟨rfl, hg, fun hs _ => hs⟩
  | cons op ops ih =>
    intro cols hu hg hwf
    rcases hwf with ⟨hop, hwf'⟩
    have hu' : forall cid, (applyOp cols op).countP (fun c => c.id = cid) <= 1 := by
      intro cid
      rw [countP_colIds_eq cols _ (applyOp_colIds cols op) cid]
      exact hu cid
    have hg' := applyOp_idCount_le_one cols op hu hg hop
    rcases ih (applyOp cols op) hu' hg' hwf' with ⟨hids, hcnt, hsort⟩
    refine ⟨?_, hcnt, ?_⟩
    · rw [show applyOps cols (op :: ops) = applyOps (applyOp cols op) ops from rfl,
        hids, applyOp_colIds]
    · intro hs hb
      rcases hb with ⟨hb1, hb2⟩
      exact hsort (applyOp_sortedAll cols op hu hg hop hb1 hs) hb2

/-! ## Association-list and filter lemmas for the board collection state -/

theorem find?_cons_eq_ite {α : Type} (p : α → Bool) (a : α) (l : List α) :
    (a :: l).find? p = if p a = true then some a else l.find? p := by
  cases h : p a with
  | true => simp [List.find?_cons_of_pos _ h]
  | false =>
    rw [if_neg (by simp)]
    exact @List.find?_cons_of_neg _ p a l (by simp [h])

theorem lookupNat_cons (q : String × Nat) (ps : List (String × Nat)) (k : String) :
    lookupNat (q :: ps) k = if q.1 = k then some q.2 else lookupNat ps k := by
  rw [lookupNat, find?_cons_eq_ite]
  by_cases h : q.1 = k
  · rw [if_pos (by simpa using h), if_pos h]
    rfl
  · rw [if_neg (by simpa using h), if_neg h]
    rfl

theorem lookupNat_append (m m2 : List (String × Nat)) (k : String) :
    lookupNat (m ++ m2) k
      = match lookupNat m k with
        | some v => some v
        | none => lookupNat m2 k := by
  induction m with
  | nil => rfl
  | cons q ps ih =>
    rw [List.cons_append, lookupNat_cons, lookupNat_cons]
    by_cases h : q.1 = k
    · rw [if_pos h, if_pos h]
    · rw [if_neg h, if_neg h]
      exact ih

theorem removeKey_cons (q : String × Nat) (ps : List (String × Nat)) (k : String) :
    removeKey (q :: ps) k
      = if q.1 = k then removeKey ps k else q :: removeKey ps k := by
  rw [removeKey, List.filter_cons]
  by_cases h : q.1 = k
  · rw [if_neg (by simp [h]), if_pos h]
    rfl
  · rw [if_pos (by simp [h]), if_neg h]
    rfl

theorem lookupNat_removeKey_self (m : List (String × Nat)) (k : String) :
    lookupNat (removeKey m k) k = none := by
  induction m with
  | nil => rfl
  | cons q ps ih =>
    rw [removeKey_cons]
    by_cases h : q.1 = k
    · rw [if_pos h]
      exact ih
    · rw [if_neg h, lookupNat_cons, if_neg h]
      exact ih

theorem lookupNat_removeKey_ne (m : List (String × Nat)) (k k2 : String)
    (h : k2 ≠ k) : lookupNat (removeKey m k) k2 = lookupNat m k2 := by
  induction m with
  | nil => rfl
  | cons q ps ih =>
    rw [removeKey_cons, lookupNat_cons]
    by_cases hq : q.1 = k
    · rw [if_pos hq, if_neg (by rw [hq]; exact fun he => h he.symm)]
      exact ih
    · rw [if_neg hq, lookupNat_cons]
      by_cases hq2 : q.1 = k2
      · rw [if_pos hq2, if_pos hq2]
      · rw [if_neg hq2, if_neg hq2]
        exact ih

theorem any_removeKey_self (m : List (String × Nat)) (k : String) :
    (removeKey m k).any (fun p => p.1 = k) = false := by
  induction m with
  | nil => rfl
  | cons q ps ih =>
    rw [removeKey_cons]
    by_cases h : q.1 = k
    · rw [if_pos h]
      exact ih
    · rw [if_neg h, List.any_cons, ih]
      simp [h]

theorem setKey_removeKey (m : List (String × Nat)) (k : String) (v : Nat) :
    setKey (removeKey m k) k v = removeKey m k ++ [(k, v)] := by
  rw [setKey, if_neg]
  simp [any_removeKey_self]

theorem lookupNat_setKey_self (m : List (String × Nat)) (k : String) (v : Nat) :
    lookupNat (setKey m k v) k = some v := by
  rw [setKey]
  by_cases h : m.any (fun p => p.1 = k)
  · rw [if_pos h]
    induction m with
    | nil => simp at h
    | cons q ps ih =>
      rw [List.map_cons, lookupNat_cons]
      by_cases hq : q.1 = k
      · rw [if_pos hq]
        simp
      · rw [if_neg hq]
        simp only [if_neg hq]
        refine ih ?_
        rcases List.any_eq_true.mp h with ⟨x, hx, hpx⟩
        rcases List.mem_cons.mp hx with rfl | hx
        · simp [hq] at hpx
        · exact List.any_eq_true.mpr ⟨x, hx, hpx⟩
  · rw [if_neg h, lookupNat_append]
    have hnone : lookupNat m k = none := by
      rw [lookupNat, List.find?_eq_none.mpr]
      · rfl
      · intro q hq hqk
        exact h (List.any_eq_true.mpr ⟨q, hq, hqk⟩)
    rw [hnone, lookupNat_cons]
    simp

theorem filter_boards_split (l1 l2 : List Board) (b : Board) (boardId : String)
    (hb : b.id = boardId) (hl1 : ∀ x ∈ l1, x.id ≠ boardId)
    (hl2 : ∀ x ∈ l2, x.id ≠ boardId) :
    (l1 ++ b :: l2).filter (fun x => x.id ≠ boardId) = l1 ++ l2 := by
  rw [List.filter_append, List.filter_cons, if_neg (by simp [hb]),
    List.filter_eq_self.mpr (fun a ha => by simpa using hl1 a ha),
    List.filter_eq_self.mpr (fun a ha => by simpa using hl2 a ha)]

/-! ## `sanitizeField` properties -/

theorem sanitizeField_eq (v : Option (Option String)) :
    sanitizeField v = if v = some (some "") then some none else v := by
  match v with
  | none => rfl
  | some none => rfl
  | some (some s) =>
    by_cases h : s = ""
    · simp [sanitizeField, h]
    · simp [sanitizeField, h]

theorem sanitizeField_ne_blank (v : Option (Option String)) :
    sanitizeField v ≠ some (some "") := by
  rw [sanitizeField_eq]
  by_cases h : v = some (some "")
  · simp [h]
  · rw [if_neg h]
    exact h

theorem sanitizeField_none_iff (v : Option (Option String)) :
    sanitizeField v = none ↔ v = none := by
  rw [sanitizeField_eq]
  by_cases h : v = some (some "")
  · simp [h]
  · simp [h]

theorem sanitizeField_idem (v : Option (Option String)) :
    sanitizeField (sanitizeField v) = sanitizeField v := by
  rw [sanitizeField_eq v]
  by_cases h : v = some (some "")
  · simp [h, sanitizeField]
  · rw [if_neg h, sanitizeField_eq, if_neg h]

theorem sanitizeTaskUpdates_idem (u : TaskUpdates) :
    sanitizeTaskUpdates (sanitizeTaskUpdates u) = sanitizeTaskUpdates u := by
  simp [sanitizeTaskUpdates, sanitizeField_idem]

/-! ## Counting lemmas for `restoreBoard` -/

theorem length_filterMap_eq_countP {α β : Type} (f : α → Option β) (l : List α) :
    (l.filterMap f).length = l.countP (fun a => (f a).isSome) := by
  induction l with
  | nil => rfl
  | cons a as ih =>
    cases h : f a with
    | none => simp [List.filterMap_cons, h, List.countP_cons, ih]
    | some b => simp [List.filterMap_cons, h, List.countP_cons, ih]

theorem countP_lt_length {α : Type} (p : α → Bool) (l : List α) (a : α)
    (ha : a ∈ l) (hpa : p a = false) : l.countP p < l.length := by
  induction l with
  | nil => simp at ha
  | cons x xs ih =>
    rcases List.mem_cons.mp ha with rfl | ha'
    · rw [List.countP_cons]
      have := List.countP_le_length (l := xs) (p := p)
      simp [hpa]
      omega
    · rw [List.countP_cons]
      have := ih ha'
      by_cases hx : p x = true <;> simp [hx] <;> omega

theorem isSome_map {α β : Type} (f : α → β) (x : Option α) :
    (Option.map f x).isSome = x.isSome := by
  cases x <;> rfl

theorem lookupStr_colIdMap_isSome (cols : List Column) (newColId : String → String)
    (k : String) :
    (lookupStr (colIdMap cols newColId) k).isSome
      = cols.any (fun c => c.id = k) := by
  rw [lookupStr, isSome_map]
  cases hfind : (colIdMap cols newColId).find? (fun p => p.1 = k) with
  | none =>
    have hnone := List.find?_eq_none.mp hfind
    have hfalse : cols.any (fun c => c.id = k) = false := by
      cases hany : cols.any (fun c => c.id = k) with
      | false => rfl
      | true =>
        exfalso
        rcases List.any_eq_true.mp hany with ⟨c, hc, hck⟩
        refine hnone (c.id, newColId c.id) ?_ (by simpa using hck)
        rw [colIdMap, List.mem_reverse]
        exact List.mem_map.mpr ⟨c, (mem_sortLe columnLe c cols).mpr hc, rfl⟩
    rw [hfalse]
    rfl
  | some p =>
    have hmem := List.mem_of_find?_eq_some hfind
    rw [colIdMap, List.mem_reverse] at hmem
    rcases List.mem_map.mp hmem with ⟨c, hc, hpc⟩
    have hck : p.1 = k := by simpa using List.find?_some hfind
    have hcid : c.id = k := by
      rw [← hpc] at hck
      simpa using hck
    have hany : cols.any (fun c => c.id = k) = true :=
      List.any_eq_true.mpr ⟨c, (mem_sortLe columnLe c cols).mp hc, by simpa using hcid⟩
    rw [hany]
    rfl

theorem length_recreatedTasks (snapshot : BoardDeletedSnapshot)
    (newColId : String → String) :
    (recreatedTasks snapshot newColId).length
      = snapshot.tasks.countP
          (fun t => snapshot.columns.any (fun c => c.id = t.column_id)) := by
  rw [recreatedTasks, length_filterMap_eq_countP]
  refine List.countP_congr ?_
  intro t _
  rw [isSome_map, lookupStr_colIdMap_isSome]

/-! ## Concrete fixtures used by counterexamples and witnesses -/

def sampleBoard (i : String) : Board :=
  { id := i, title := "Board", description := none, color := "bg-blue-500",
    user_id := "u", created_at := "", updated_at := "" }

def sampleTask (i cid : String) (so : Int) : Task :=
  { id := i, title := i, description := none, assignee := none, due_date := none,
    priority := some "medium", column_id := cid, sort_order := so,
    created_at := "", updated_at := "" }

def sampleCol (i : String) (tasks : List Task) : ColumnWithTasks :=
  { id := i, title := "To Do", board_id := "B", user_id := "u", sort_order := 0,
    created_at := "", tasks := tasks }

def col0 : ColumnWithTasks :=
  sampleCol "A" [sampleTask "a" "A" 0, sampleTask "b" "A" 1, sampleTask "c" "A" 2]

def ops0 : List Op :=
  [.deleteOk "a", .deleteOk "b", .create "A" (sampleTask "d" "A" 1)]

def opsB : List Op := [.deleteOk "a", .create "A" (sampleTask "d" "A" 2)]

def snapCol (i : String) (so : Int) : Column :=
  { id := i, title := "Col", board_id := "B", user_id := "u", sort_order := so,
    created_at := "" }

def snap8 : BoardDeletedSnapshot :=
  { board := sampleBoard "1", columns := [snapCol "X" 0],
    tasks := [sampleTask "t" "Y" 0] }

def snap9 : BoardDeletedSnapshot :=
  { board := sampleBoard "1", columns := [snapCol "X" 0],
    tasks := [sampleTask "t1" "Y" 0, sampleTask "t2" "X" 0] }

/-! ## Claim C2 -/

/-- C2, counterexample: when the primary store write of
`taskService.editTaskInColumn`, `taskService.deleteTask`, or
`columnService.updateColumnTitle` succeeds but the follow-up `touchBoard`
write fails, the service does **not** return the mutated record — it raises
the touch error, so the claim "the operation is not treated as a failure"
is false on the code. -/
theorem C2_counterexample :
    (editTaskInColumn "t" (.ok (sampleTask "t" "A" 0)) (.ok "B") (.error "boom")).1
        = .error "boom"
    ∧ (serviceDeleteTask "t" (.ok (sampleTask "t" "A" 0)) (.ok "B")
        (.error "boom")).1 = .error "boom"
    ∧ (updateColumnTitle "X" (.ok (snapCol "X" 0)) (.error "boom")).1
        = .error "boom" := ⟨rfl, rfl, rfl⟩

/-- C2, amended: for every update of a Column and every update or delete of
a Task whose primary store write succeeds but whose follow-up board-touch
write fails, the primary mutation is not rolled back — the write trace
contains exactly the committed primary write and no compensating write —
but the service raises the touch error instead of returning the mutated
record (the hook layer then catches it into the error slot).  The Gateway
exposes no column delete operation, so the original claim's column-delete
case has no code to hold of. -/
theorem C2_amended (taskId columnId : String) (u : Task) (cu : Column)
    (b e : String) :
    editTaskInColumn taskId (.ok u) (.ok b) (.error e)
      = (.error e, [.taskUpdate taskId])
    ∧ serviceDeleteTask taskId (.ok u) (.ok b) (.error e)
      = (.error e, [.taskDelete taskId])
    ∧ updateColumnTitle columnId (.ok cu) (.error e)
      = (.error e, [.columnUpdate columnId]) := ⟨rfl, rfl, rfl⟩

/-! ## Claim C3 -/

/-- C3, counterexample: `createBoard` invoked before the user identity and
store handle are available (`ready = false`) throws the synchronous
"Not ready yet." error past the controller boundary, so the claim's
"including when it is invoked before the user identity and store handle are
available" clause is false on the code. -/
theorem C3_counterexample :
    createBoardHook false { boards := [], boardCounts := [], error := none }
      (.ok (sampleBoard "1")) = .error "Not ready yet." := rfl

/-- C3, amended: once the user identity and store handle are available
(`ready = true`), every controller operation returns a value and never
throws — every gateway failure is captured into the error slot; but when
invoked before they are available each operation throws the synchronous
"Not ready yet" error. -/
theorem C3_amended :
    (∀ st gw, (createBoardHook true st gw).isOk = true)
  ∧ (∀ st gw, createBoardHook false st gw = .error "Not ready yet.")
  ∧ (∀ st i gw, (updateBoardHook true st i gw).isOk = true)
  ∧ (∀ st i gw, updateBoardHook false st i gw = .error "Not ready yet")
  ∧ (∀ st bid snap del, (deleteBoardHook true st bid snap del).isOk = true)
  ∧ (∀ st bid snap del, deleteBoardHook false st bid snap del
      = .error "Not ready yet")
  ∧ (∀ st snap gw, (restoreBoardHook true st snap gw).isOk = true)
  ∧ (∀ st snap gw, restoreBoardHook false st snap gw = .error "Not ready yet.")
  ∧ (∀ st i gw, (updateBoardLocalHook true st i gw).isOk = true)
  ∧ (∀ st i gw, updateBoardLocalHook false st i gw = .error "Not ready yet")
  ∧ (∀ st cid gw, (createRealTaskHook true st cid gw).isOk = true)
  ∧ (∀ st cid gw, createRealTaskHook false st cid gw = .error "Not ready yet")
  ∧ (∀ st tid ncid nOrd gw, (moveTaskHook true st tid ncid nOrd gw).isOk = true)
  ∧ (∀ st tid ncid nOrd gw, moveTaskHook false st tid ncid nOrd gw
      = .error "Not ready yet")
  ∧ (∀ st tid u gw, (updateTaskHook true st tid u gw).isOk = true)
  ∧ (∀ st tid u gw, updateTaskHook false st tid u gw = .error "Not ready yet")
  ∧ (∀ st gw, (createColumnHook true st gw).isOk = true)
  ∧ (∀ st gw, createColumnHook false st gw = .error "Not ready yet")
  ∧ (∀ st cid gw, (updateColumnHook true st cid gw).isOk = true)
  ∧ (∀ st cid gw, updateColumnHook false st cid gw = .error "Not ready yet")
  ∧ (∀ st tid del, (deleteTaskHook true st tid del).isOk = true)
  ∧ (∀ st tid del, deleteTaskHook false st tid del = .error "Not ready yet") := by
  refine ⟨?_, fun _ _ => rfl, ?_, fun _ _ _ => rfl, ?_, fun _ _ _ _ => rfl,
    ?_, fun _ _ _ => rfl, ?_, fun _ _ _ => rfl, ?_, fun _ _ _ => rfl,
    ?_, fun _ _ _ _ _ => rfl, ?_, fun _ _ _ _ => rfl, ?_, fun _ _ => rfl,
    ?_, fun _ _ _ => rfl, ?_, fun _ _ _ => rfl⟩
  · intro st gw
    cases gw <;> rfl
  · intro st i gw
    cases gw <;> rfl
  · intro st bid snap del
    cases snap with
    | error m => rfl
    | ok sn => cases del <;> rfl
  · intro st snap gw
    rcases gw with m | ⟨nb, f⟩ <;> rfl
  · intro st i gw
    cases gw <;> rfl
  · intro st cid gw
    cases gw <;> rfl
  · intro st tid ncid nOrd gw
    cases gw <;> rfl
  · intro st tid u gw
    rw [updateTaskHook]
    cases h : gw (sanitizeTaskUpdates u) with
    | error m => rfl
    | ok v => cases v <;> rfl
  · intro st gw
    cases gw <;> rfl
  · intro st cid gw
    cases gw <;> rfl
  · intro st tid del
    rw [deleteTaskHook]
    cases h : findContaining st.columns tid with
    | none => rfl
    | some c => cases del <;> rfl

/-! ## Claim C5 -/

/-- C5: `sanitizeTaskUpdates` — the payload `updateTask` sends to the store —
turns an empty-string `description`, `assignee` or `due_date` into `null`
(never an empty string), drops every `undefined` field (a field is absent
from the payload exactly when it was absent from the update), passes all
other fields through unchanged, and `updateTask` sends exactly this
sanitized payload to the gateway (sanitizing is idempotent, so the payload
sent is itself fixed under sanitizing). -/
theorem C5_sanitize (u : TaskUpdates) :
    ((sanitizeTaskUpdates u).description
        = if u.description = some (some "") then some none else u.description)
  ∧ ((sanitizeTaskUpdates u).assignee
        = if u.assignee = some (some "") then some none else u.assignee)
  ∧ ((sanitizeTaskUpdates u).due_date
        = if u.due_date = some (some "") then some none else u.due_date)
  ∧ (sanitizeTaskUpdates u).description ≠ some (some "")
  ∧ (sanitizeTaskUpdates u).assignee ≠ some (some "")
  ∧ (sanitizeTaskUpdates u).due_date ≠ some (some "")
  ∧ ((sanitizeTaskUpdates u).description = none ↔ u.description = none)
  ∧ ((sanitizeTaskUpdates u).assignee = none ↔ u.assignee = none)
  ∧ ((sanitizeTaskUpdates u).due_date = none ↔ u.due_date = none)
  ∧ (sanitizeTaskUpdates u).title = u.title
  ∧ (sanitizeTaskUpdates u).priority = u.priority
  ∧ (sanitizeTaskUpdates u).column_id = u.column_id
  ∧ (sanitizeTaskUpdates u).sort_order = u.sort_order
  ∧ (∀ ready st tid gw, updateTaskHook ready st tid u gw
      = updateTaskHook ready st tid (sanitizeTaskUpdates u) gw) := by
  refine ⟨sanitizeField_eq u.description, sanitizeField_eq u.assignee,
    sanitizeField_eq u.due_date, sanitizeField_ne_blank u.description,
    sanitizeField_ne_blank u.assignee, sanitizeField_ne_blank u.due_date,
    sanitizeField_none_iff u.description, sanitizeField_none_iff u.assignee,
    sanitizeField_none_iff u.due_date, rfl, rfl, rfl, rfl, ?_⟩
  intro ready st tid gw
  rw [updateTaskHook, updateTaskHook, sanitizeTaskUpdates_idem]

/-! ## Claim C6 -/

/-- C6: if the snapshot capture step of `deleteBoard` fails, the delete is
aborted — the error slot is set to the failure message, the boards list and
the boardCounts map are unchanged, no snapshot is returned, and no gateway
delete call is issued (third component `false`). -/
theorem C6_theorem (st : BoardsState) (boardId msg : String)
    (del : Except String Unit) :
    deleteBoardHook true st boardId (.error msg) del
      = .ok ({ boards := st.boards, boardCounts := st.boardCounts,
               error := some msg }, none, false) := rfl

/-! ## Claim C10 -/

/-- C10: `deleteTask` on a task id not present in any column returns no
snapshot, issues no gateway delete call (third component `false`), and
leaves the columns and the error slot unchanged. -/
theorem C10_theorem (st : BoardState) (taskId : String)
    (del : Except String Unit)
    (habsent : ∀ c ∈ st.columns, ∀ t ∈ c.tasks, t.id ≠ taskId) :
    deleteTaskHook true st taskId del = .ok (st, none, false) := by
  have hfind : findContaining st.columns taskId = none := by
    rw [findContaining, List.find?_eq_none]
    intro c hc h
    rcases List.any_eq_true.mp h with ⟨t, ht, hpt⟩
    exact habsent c hc t ht (by simpa using hpt)
  rw [deleteTaskHook, hfind]
  rfl

/-- C10 witness: deleting the unknown id "zz" from a concrete one-column
board is a no-op with no gateway call. -/
theorem C10_witness :
    deleteTaskHook true (stOf [col0]) "zz" (.ok ())
      = .ok (stOf [col0], none, false) :=
  C10_theorem (stOf [col0]) "zz" (.ok ()) (by decide)

/-! ## Claim C1 -/

/-- C1, counterexample: a failed gateway delete does **not** restore the
boards list byte-for-byte — the deleted board is reinstated at the *front*,
not at its original position.  Pre-call boards `[board1, board2]`, deleting
`"2"` with a successful snapshot and a failed gateway delete yields
`[board2, board1]` ≠ `[board1, board2]`. -/
theorem C1_counterexample :
    deleteBoardHook true
        { boards := [sampleBoard "1", sampleBoard "2"],
          boardCounts := [("1", 0), ("2", 0)], error := none } "2"
        (.ok { board := sampleBoard "2", columns := [], tasks := [] })
        (.error "boom")
      = .ok ({ boards := [sampleBoard "2", sampleBoard "1"],
               boardCounts := [("1", 0), ("2", 0)], error := some "boom" },
             none, true)
    ∧ [sampleBoard "2", sampleBoard "1"] ≠ [sampleBoard "1", sampleBoard "2"] := by
  exact ⟨rfl, by decide⟩

/-- C1, amended: after `deleteBoard` fails at the gateway step, the boards
list holds the same boards as before but with the snapshot's board record
moved to the front (a permutation of the pre-call list), and `boardCounts`
agrees with its pre-call value on every other board while the deleted
board's entry is set to the snapshot's task count (appended at the end);
byte-for-byte equality holds only when the board was already first and its
count already matched the snapshot. -/
theorem C1_amended (st : BoardsState) (boardId msg : String)
    (snapshot : BoardDeletedSnapshot) (l1 l2 : List Board)
    (hsplit : st.boards = l1 ++ snapshot.board :: l2)
    (hl1 : ∀ b ∈ l1, b.id ≠ boardId) (hl2 : ∀ b ∈ l2, b.id ≠ boardId)
    (hbid : snapshot.board.id = boardId) :
    deleteBoardHook true st boardId (.ok snapshot) (.error msg)
      = .ok ({ boards := snapshot.board :: (l1 ++ l2),
               boardCounts := removeKey st.boardCounts boardId
                 ++ [(boardId, snapshot.tasks.length)],
               error := some msg }, none, true)
    ∧ (snapshot.board :: (l1 ++ l2)).Perm st.boards
    ∧ lookupNat (removeKey st.boardCounts boardId
        ++ [(boardId, snapshot.tasks.length)]) boardId
        = some snapshot.tasks.length
    ∧ (∀ k, k ≠ boardId →
        lookupNat (removeKey st.boardCounts boardId
          ++ [(boardId, snapshot.tasks.length)]) k
          = lookupNat st.boardCounts k) := by
  refine ⟨?_, ?_, ?_, ?_⟩
  · have hunfold : deleteBoardHook true st boardId (.ok snapshot) (.error msg)
        = Except.ok
            ({ boards :=
                  snapshot.board :: (st.boards.filter (fun b => b.id ≠ boardId)),
               boardCounts :=
                  setKey (removeKey st.boardCounts boardId) snapshot.board.id
                    snapshot.tasks.length,
               error := some msg },
             none, true) := rfl
    rw [hunfold, hsplit,
      filter_boards_split l1 l2 snapshot.board boardId hbid hl1 hl2,
      hbid, setKey_removeKey]
  · rw [hsplit]
    exact List.perm_middle.symm
  · rw [lookupNat_append, lookupNat_removeKey_self, lookupNat_cons]
    simp
  · intro k hk
    rw [lookupNat_append, lookupNat_removeKey_ne _ _ _ hk]
    cases h : lookupNat st.boardCounts k with
    | some v => rfl
    | none =>
      rw [lookupNat_cons, if_neg (fun heq => hk heq.symm)]
      rfl

/-- C1 witness: a concrete failed delete with the board at index 1; the
board comes back at the front and its count entry is rebuilt from the
snapshot. -/
theorem C1_witness :
    deleteBoardHook true
        { boards := [sampleBoard "1", sampleBoard "2"],
          boardCounts := [("2", 3)], error := none } "2"
        (.ok { board := sampleBoard "2", columns := [], tasks := [] })
        (.error "x")
      = .ok ({ boards := [sampleBoard "2", sampleBoard "1"],
               boardCounts := [("2", 0)], error := some "x" }, none, true) := by
  have h := (C1_amended
    { boards := [sampleBoard "1", sampleBoard "2"], boardCounts := [("2", 3)],
      error := none } "2" "x"
    { board := sampleBoard "2", columns := [], tasks := [] }
    [sampleBoard "1"] [] rfl (by decide) (by decide) rfl).1
  exact h.trans rfl

/-! ## Claim C4 -/

/-- C4, counterexample: starting from a single column `A` with tasks at
positions `[0, 1, 2]` (sorted, unique ids, unique column ids), the
store-contract-respecting trace `deleteTask a; deleteTask b; createTask`
leaves column `A` with positions `[2, 1]`: `createTask` computes the new
sort position as the column's *current length* (1) and appends, placing a
smaller position after a larger one.  So sortedness is not preserved by
every create/move/delete sequence. -/
theorem C4_counterexample :
    SortedAll [col0] ∧ UniqueColIds [col0] ∧ GlobalNoDup [col0]
  ∧ WFTrace [col0] ops0
  ∧ ¬ SortedAll (applyOps [col0] ops0) := by decide

/-- C4, amended: for every sequence of createTask/moveTask/deleteTask steps
whose gateway responses obey the store contract (fresh created ids; updated
rows echo the requested id, column and position), applied to a board state
with unique column ids and globally unique task ids, every column of the
resulting state has no duplicate task identities; and the resulting columns
are sorted ascending by sort position provided additionally every
createTask step lands in a column whose existing positions do not exceed
its task count (e.g. dense positions) — without that proviso createTask can
break sortedness, as the counterexample shows. -/
theorem C4_amended (cols : List ColumnWithTasks) (ops : List Op)
    (hu : UniqueColIds cols) (hg : GlobalNoDup cols) (hwf : WFTrace cols ops) :
    (∀ c ∈ applyOps cols ops, NoDupIds c.tasks)
  ∧ (SortedAll cols → BoundedTrace cols ops → SortedAll (applyOps cols ops)) := by
  rcases trace_invariants ops cols ((uniqueColIds_iff cols).mp hu)
    ((globalNoDup_iff cols).mp hg) hwf with ⟨_, hcnt, hsort⟩
  exact ⟨noDupIds_of_global _ hcnt, hsort⟩

/-- C4 witness: a delete followed by a bounded create keeps the concrete
column sorted. -/
theorem C4_witness : SortedAll (applyOps [col0] opsB) :=
  (C4_amended [col0] opsB (by decide) (by decide) (by decide)).2
    (by decide) (by decide)

/-! ## Claim C7 -/

/-- C7: when `deleteTask` finds the task (in column `c`) and the gateway
delete fails, the task is reinserted at its original index in its original
column, restoring the columns exactly to their pre-call value, and the
error slot is set — on any well-formed state (unique column ids, globally
unique task ids). -/
theorem C7_theorem (st : BoardState) (taskId msg : String)
    (c : ColumnWithTasks)
    (hu : UniqueColIds st.columns) (hg : GlobalNoDup st.columns)
    (hfind : findContaining st.columns taskId = some c) :
    deleteTaskHook true st taskId (.error msg)
      = .ok ({ board := st.board, columns := st.columns, error := some msg },
             none, true) := by
  have hres := deleteFail_restore st.columns taskId c
    ((uniqueColIds_iff _).mp hu) ((globalNoDup_iff _).mp hg) hfind
  have hunfold : deleteTaskHook true st taskId (.error msg)
      = Except.ok
          ({ board := st.board,
             columns :=
                reinsertIntoColumns (removeFromColumns st.columns c.id taskId)
                  c.id (c.tasks.findIdx (fun t => t.id = taskId))
                  (c.tasks.getD (c.tasks.findIdx (fun t => t.id = taskId)) default),
             error := some msg },
           none, true) := by
    rw [deleteTaskHook, hfind]
    rfl
  rw [hunfold, hres]

/-- C7 witness: failing to delete task "b" from the concrete column leaves
the state exactly as before, with the error slot set. -/
theorem C7_witness :
    deleteTaskHook true (stOf [col0]) "b" (.error "x")
      = .ok ({ board := none, columns := [col0], error := some "x" },
             none, true) :=
  C7_theorem (stOf [col0]) "b" "x" col0 (by decide) (by decide) (by decide)

/-! ## Claim C8 -/

/-- C8, counterexample: restoring a snapshot with one column `X` and one
task referencing the missing column `Y` recreates zero tasks but sets the
recreated board's count to `1` (the total snapshot task count), not to the
number of tasks actually recreated. -/
theorem C8_counterexample :
    restoreBoardHook true { boards := [], boardCounts := [], error := none }
        snap8 (.ok (sampleBoard "2", fun _ => "NX"))
      = .ok ({ boards := [sampleBoard "2"], boardCounts := [("2", 1)],
               error := none }, some (sampleBoard "2"), [])
    ∧ (1 : Nat) ≠ ([] : List TaskInsert).length := by
  exact ⟨rfl, by decide⟩

/-- C8, amended: a successful `restoreBoard` prepends the recreated board
and sets its task count to the *total* number of tasks in the snapshot
(`snapshot.tasks.length`), while the number of tasks actually recreated is
the number of snapshot tasks whose column appears among the snapshot's
columns; the two agree exactly when no task is skipped. -/
theorem C8_amended (st : BoardsState) (snapshot : BoardDeletedSnapshot)
    (nb : Board) (newColId : String → String) :
    restoreBoardHook true st snapshot (.ok (nb, newColId))
      = .ok ({ boards := nb :: st.boards,
               boardCounts := setKey st.boardCounts nb.id snapshot.tasks.length,
               error := st.error }, some nb, recreatedTasks snapshot newColId)
    ∧ lookupNat (setKey st.boardCounts nb.id snapshot.tasks.length) nb.id
        = some snapshot.tasks.length
    ∧ (recreatedTasks snapshot newColId).length
        = snapshot.tasks.countP
            (fun t => snapshot.columns.any (fun c => c.id = t.column_id)) := by
  exact ⟨rfl, lookupNat_setKey_self _ _ _, length_recreatedTasks snapshot newColId⟩

/-! ## Claim C9 -/

/-- C9: when a snapshot task references a column identity absent from the
snapshot's columns, `restoreBoard` succeeds anyway: it returns the
recreated board, raises no error, recreates exactly the tasks whose column
is present (the orphan's column lookup is `none`, so it is silently
skipped), and the recreated-task count is strictly below the snapshot's
task count. -/
theorem C9_theorem (st : BoardsState) (snapshot : BoardDeletedSnapshot)
    (nb : Board) (newColId : String → String) (t : Task)
    (ht : t ∈ snapshot.tasks)
    (horphan : ∀ c ∈ snapshot.columns, c.id ≠ t.column_id) :
    restoreBoardHook true st snapshot (.ok (nb, newColId))
      = .ok ({ boards := nb :: st.boards,
               boardCounts := setKey st.boardCounts nb.id snapshot.tasks.length,
               error := st.error }, some nb, recreatedTasks snapshot newColId)
    ∧ lookupStr (colIdMap snapshot.columns newColId) t.column_id = none
    ∧ (recreatedTasks snapshot newColId).length
        = snapshot.tasks.countP
            (fun u => snapshot.columns.any (fun c => c.id = u.column_id))
    ∧ (recreatedTasks snapshot newColId).length < snapshot.tasks.length := by
  have hanyf : snapshot.columns.any (fun c => c.id = t.column_id) = false := by
    cases hany : snapshot.columns.any (fun c => c.id = t.column_id) with
    | false => rfl
    | true =>
      rcases List.any_eq_true.mp hany with ⟨c, hc, hck⟩
      exact absurd (by simpa using hck) (horphan c hc)
  have hlook : lookupStr (colIdMap snapshot.columns newColId) t.column_id
      = none := by
    have hiso := lookupStr_colIdMap_isSome snapshot.columns newColId t.column_id
    rw [hanyf] at hiso
    cases hl : lookupStr (colIdMap snapshot.columns newColId) t.column_id with
    | none => rfl
    | some v =>
      rw [hl] at hiso
      simp at hiso
  refine ⟨rfl, hlook, length_recreatedTasks snapshot newColId, ?_⟩
  rw [length_recreatedTasks]
  exact countP_lt_length _ _ t ht hanyf

/-- C9 witness: a concrete snapshot with column `X` and tasks in `Y`
(orphan) and `X`; the orphan is skipped and one task is recreated. -/
theorem C9_witness :
    restoreBoardHook true { boards := [], boardCounts := [], error := none }
        snap9 (.ok (sampleBoard "2", fun _ => "NX"))
      = .ok ({ boards := [sampleBoard "2"],
               boardCounts := setKey [] "2" 2, error := none },
             some (sampleBoard "2"), recreatedTasks snap9 (fun _ => "NX"))
    ∧ lookupStr (colIdMap snap9.columns (fun _ => "NX")) "Y" = none
    ∧ (recreatedTasks snap9 (fun _ => "NX")).length
        = snap9.tasks.countP
            (fun u => snap9.columns.any (fun c => c.id = u.column_id))
    ∧ (recreatedTasks snap9 (fun _ => "NX")).length < snap9.tasks.length :=
  C9_theorem { boards := [], boardCounts := [], error := none } snap9
    (sampleBoard "2") (fun _ => "NX") (sampleTask "t1" "Y" 0)
    (by decide) (by decide)

end TC
